import Mathlib

/-!
Verification of the AB3DMOT-TS tracker core.

Shallow embedding of the repository's tracking engine:
* `calculate3DIoU` — axis-aligned 3D IoU (src/src_old/utils.ts).
* `AB3DMOTTracker` pipeline — predict / associate / update / spawn / prune
  and the `step` / `update` / `run` entry points (src/src/index.ts).
* `KalmanFilter3D` — constant-velocity Kalman filter (src/src/kalman.ts)
  and the Kalman-wired `updateTracks` of the part_001 variant of index.ts.

TypeScript `number` values are modelled as exact rationals (`ℚ`); the
`-1` sentinels of the source are modelled as `Option`; a thrown exception
is modelled as an `Except`-style error value that stops the computation
that would have been aborted by the throw.
-/

attribute [local semireducible] Rat.add Rat.mul Rat.inv Rat.sub

namespace AB3DMOT

/-- Geometry data model (src/unnamed/part_000): center, extents, orientation. -/
structure BoundingBox3D where
  x : ℚ
  y : ℚ
  z : ℚ
  width : ℚ
  height : ℚ
  length : ℚ
  orientation : ℚ
deriving DecidableEq, Repr

/-- Detection (src/unnamed/part_000): bbox, confidence, optional ids. -/
structure Detection where
  id : Option ℚ := none
  bbox : BoundingBox3D
  confidence : ℚ
  classId : Option ℚ := none
deriving DecidableEq, Repr

/-- Track as used by src/src/index.ts (the live tracker does not attach a
Kalman filter; the `kalmanFilter?` field stays absent there). -/
structure Track where
  id : ℕ
  bbox : BoundingBox3D
  velocity : ℚ × ℚ × ℚ
  age : ℚ
  hits : ℚ
  timeSinceUpdate : ℚ
deriving DecidableEq, Repr

/-- Intersection volume of two boxes, axis-aligned, per-axis overlap clamped
to 0 (src/src_old/utils.ts `calculateIntersection3D`). -/
def calculateIntersection3D (bbox1 bbox2 : BoundingBox3D) : ℚ :=
  let x1Min := bbox1.x - bbox1.width / 2
  let x1Max := bbox1.x + bbox1.width / 2
  let y1Min := bbox1.y - bbox1.height / 2
  let y1Max := bbox1.y + bbox1.height / 2
  let z1Min := bbox1.z - bbox1.length / 2
  let z1Max := bbox1.z + bbox1.length / 2
  let x2Min := bbox2.x - bbox2.width / 2
  let x2Max := bbox2.x + bbox2.width / 2
  let y2Min := bbox2.y - bbox2.height / 2
  let y2Max := bbox2.y + bbox2.height / 2
  let z2Min := bbox2.z - bbox2.length / 2
  let z2Max := bbox2.z + bbox2.length / 2
  let xOverlap := max 0 (min x1Max x2Max - max x1Min x2Min)
  let yOverlap := max 0 (min y1Max y2Max - max y1Min y2Min)
  let zOverlap := max 0 (min z1Max z2Max - max z1Min z2Min)
  xOverlap * yOverlap * zOverlap

/-- 3D IoU (src/src_old/utils.ts `calculate3DIoU`): intersection over union,
0 when the union is not positive. -/
def calculate3DIoU (bbox1 bbox2 : BoundingBox3D) : ℚ :=
  let intersection := calculateIntersection3D bbox1 bbox2
  let volume1 := bbox1.width * bbox1.height * bbox1.length
  let volume2 := bbox2.width * bbox2.height * bbox2.length
  let union := volume1 + volume2 - intersection
  if 0 < union then intersection / union else 0

/-- Output entry of `step`: the detection together with its track id
(src/src/index.ts `TrackedDetection`). -/
structure TrackedDetection where
  det : Detection
  trackId : ℕ
deriving DecidableEq, Repr

/-- Constructor options of `AB3DMOTTracker` (the `data` frames are passed
to `run` directly in this embedding). -/
structure TrackerOptions where
  maxAge : Option ℚ := none
  minHits : Option ℚ := none
  iouThreshold : Option ℚ := none
deriving DecidableEq, Repr

/-- Mutable state of an `AB3DMOTTracker` instance (src/src/index.ts). -/
structure TrackerState where
  tracks : List Track
  nextTrackId : ℕ
  maxAge : ℚ
  minHits : ℚ
  iouThreshold : ℚ
deriving DecidableEq, Repr

/-- The constructor (src/src/index.ts lines 18–30): fields default to
3 / 3 / 0.3 and `??` keeps the default when an option is absent.  No
validation of any kind is performed. -/
def mkTracker (options : TrackerOptions) : TrackerState :=
  { tracks := []
    nextTrackId := 1
    maxAge := options.maxAge.getD 3
    minHits := options.minHits.getD 3
    iouThreshold := options.iouThreshold.getD (3 / 10) }

/-- `predictTracks` of src/src/index.ts: bump `age` and `timeSinceUpdate` of
every track (the Kalman part is a TODO in this file and does nothing). -/
def predictTracks (tracks : List Track) : List Track :=
  tracks.map fun track =>
    { track with age := track.age + 1, timeSinceUpdate := track.timeSinceUpdate + 1 }

/-- Pair every list element with its position, starting at `n`
(models the `for (let i = 0; ...)` index of the source loops). -/
def enumFromN {α : Type} : ℕ → List α → List (ℕ × α)
  | _, [] => []
  | n, a :: l => (n, a) :: enumFromN (n + 1) l

/-- Inner loop of `associateDetections`: scan the (index, track) pairs,
skip used indices, keep the strictly-best IoU seen so far.  The accumulator
`(none, -1)` models the `bestTrackIndex = -1, bestIoU = -1` initials. -/
def bestOfGo (used : List ℕ) (dbox : BoundingBox3D) :
    List (ℕ × Track) → Option ℕ × ℚ → Option ℕ × ℚ
  | [], best => best
  | (t, tr) :: rest, best =>
    if t ∈ used then bestOfGo used dbox rest best
    else
      let iou := calculate3DIoU dbox tr.bbox
      if best.2 < iou then bestOfGo used dbox rest (some t, iou)
      else bestOfGo used dbox rest best

/-- Best still-unused track for one detection (src/src/index.ts 128–138). -/
def bestOf (used : List ℕ) (dbox : BoundingBox3D) (tracks : List Track) : Option ℕ × ℚ :=
  bestOfGo used dbox (enumFromN 0 tracks) (none, -1)

/-- Outer loop of `associateDetections` (src/src/index.ts 124–145): greedy
matching in detection order, recording used tracks; an assignment happens
only when a best track exists and its IoU reaches the threshold. -/
def associateGo (iouThreshold : ℚ) (tracks : List Track) :
    List Detection → List ℕ → List (Option ℕ)
  | [], _ => []
  | d :: rest, used =>
    match bestOf used d.bbox tracks with
    | (some t, bestIoU) =>
      if iouThreshold ≤ bestIoU then
        some t :: associateGo iouThreshold tracks rest (t :: used)
      else none :: associateGo iouThreshold tracks rest used
    | (none, _) => none :: associateGo iouThreshold tracks rest used

/-- `associateDetections` (src/src/index.ts): one `Option ℕ` per detection,
`none` standing for the `-1` sentinel. -/
def associateDetections (iouThreshold : ℚ) (tracks : List Track)
    (detections : List Detection) : List (Option ℕ) :=
  associateGo iouThreshold tracks detections []

/-- One iteration of the `updateTracks` loop (src/src/index.ts 152–162):
a matched track gets the detection's bbox, `timeSinceUpdate = 0` and one
more hit. -/
def updStep (ts : List Track) (d : Detection) (a : Option ℕ) : List Track :=
  match a with
  | none => ts
  | some idx =>
    match ts.get? idx with
    | none => ts
    | some tr =>
      ts.set idx { tr with bbox := d.bbox, timeSinceUpdate := 0, hits := tr.hits + 1 }

/-- `updateTracks` of src/src/index.ts, folded over the (detection,
assignment) pairs in detection order. -/
def updateTracksMain (ts : List Track) (pairs : List (Detection × Option ℕ)) : List Track :=
  pairs.foldl (fun ts p => updStep ts p.1 p.2) ts

/-- A freshly spawned track (src/src/index.ts 175–182). -/
def newTrack (n : ℕ) (d : Detection) : Track :=
  { id := n, bbox := d.bbox, velocity := (0, 0, 0), age := 1, hits := 1, timeSinceUpdate := 0 }

/-- Loop of `createNewTracks` (src/src/index.ts 170–188): spawn one track
per unmatched detection, consuming consecutive ids, and record the
(detection index ↦ new id) map. -/
def createGo : List (ℕ × Detection × Option ℕ) → List Track → ℕ →
    List Track × ℕ × List (ℕ × ℕ)
  | [], ts, n => (ts, n, [])
  | (i, d, a) :: rest, ts, n =>
    match a with
    | some _ => createGo rest ts n
    | none =>
      let r := createGo rest (ts ++ [newTrack n d]) (n + 1)
      (r.1, r.2.1, (i, n) :: r.2.2)

/-- `createNewTracks` (src/src/index.ts). -/
def createNewTracks (ts : List Track) (nextTrackId : ℕ) (detections : List Detection)
    (assignments : List (Option ℕ)) : List Track × ℕ × List (ℕ × ℕ) :=
  createGo (enumFromN 0 (detections.zip assignments)) ts nextTrackId

/-- `deleteOldTracks` (src/src/index.ts 193–195): keep exactly the tracks
with `timeSinceUpdate <= maxAge`. -/
def deleteOldTracks (maxAge : ℚ) (ts : List Track) : List Track :=
  ts.filter fun track => track.timeSinceUpdate ≤ maxAge

/-- Lookup in the new-track map (`Map.get` of the source). -/
def lookupMap : List (ℕ × ℕ) → ℕ → Option ℕ
  | [], _ => none
  | (k, v) :: rest, i => if k = i then some v else lookupMap rest i

/-- Output assembly of `step` (src/src/index.ts 80–95): for each detection,
read `this.tracks[assignedTrackIndex]?.id` from the post-frame track table,
falling back to the id freshly minted for this detection index. -/
def assembleGo (t4 : List Track) (m : List (ℕ × ℕ)) :
    List (ℕ × Detection × Option ℕ) → List TrackedDetection
  | [] => []
  | (i, d, a) :: rest =>
    let tail := assembleGo t4 m rest
    match a with
    | some idx =>
      match (t4.get? idx).map Track.id with
      | some trackId => ⟨d, trackId⟩ :: tail
      | none =>
        match lookupMap m i with
        | some createdId => ⟨d, createdId⟩ :: tail
        | none => tail
    | none =>
      match lookupMap m i with
      | some createdId => ⟨d, createdId⟩ :: tail
      | none => tail

/-- `step` (src/src/index.ts 63–96): predict, associate, update, spawn,
prune, then assemble the per-detection output. -/
def step (s : TrackerState) (detections : List Detection) :
    List TrackedDetection × TrackerState :=
  let ts1 := predictTracks s.tracks
  let assignments := associateDetections s.iouThreshold ts1 detections
  let t2 := updateTracksMain ts1 (detections.zip assignments)
  let c := createNewTracks t2 s.nextTrackId detections assignments
  let t4 := deleteOldTracks s.maxAge c.1
  let out := assembleGo t4 c.2.2 (enumFromN 0 (detections.zip assignments))
  (out, { s with tracks := t4, nextTrackId := c.2.1 })

/-- `update` (src/src/index.ts 41–58): the same pipeline as `step`
(predict, associate, update, spawn, prune) without the output assembly;
returns the tracks with `hits >= minHits`. -/
def update (s : TrackerState) (detections : List Detection) :
    List Track × TrackerState :=
  let ts1 := predictTracks s.tracks
  let assignments := associateDetections s.iouThreshold ts1 detections
  let t2 := updateTracksMain ts1 (detections.zip assignments)
  let c := createNewTracks t2 s.nextTrackId detections assignments
  let t4 := deleteOldTracks s.maxAge c.1
  (t4.filter fun track => s.minHits ≤ track.hits,
   { s with tracks := t4, nextTrackId := c.2.1 })

/-- `run` (src/src/index.ts 101–108): apply `step` to the frames in order,
collecting each frame's output. -/
def runTracker (s : TrackerState) : List (List Detection) → List (List TrackedDetection)
  | [] => []
  | d :: ds => (step s d).1 :: runTracker (step s d).2 ds

/-- `trackBatch` (src/src/index.ts 214–220): fresh tracker over the frames. -/
def trackBatch (frames : List (List Detection)) (options : TrackerOptions) :
    List (List TrackedDetection) :=
  runTracker (mkTracker options) frames

/-- State after folding `step` over a frame list. -/
def runState (s : TrackerState) (ds : List (List Detection)) : TrackerState :=
  ds.foldl (fun s d => (step s d).2) s

/-- Errors thrown by `KalmanFilter3D.matrixInverse` (src/src/kalman.ts):
`singularMatrix` models `throw new Error('Matrix is singular')`. -/
inductive KErr where
  | singularMatrix
deriving DecidableEq, Repr

/-- Kalman filter state (src/src/kalman.ts): 6-vector `[x,y,z,vx,vy,vz]`,
6×6 covariance, and the two noise scalars. -/
structure KalmanFilter3D where
  state : Fin 6 → ℚ
  covariance : Matrix (Fin 6) (Fin 6) ℚ
  processNoise : ℚ
  measurementNoise : ℚ
deriving DecidableEq

/-- `KalmanFilter3D` constructor: position from the spawning bbox, zero
velocity, identity covariance. -/
def mkKalman (initialBbox : BoundingBox3D) (processNoise measurementNoise : ℚ) :
    KalmanFilter3D :=
  { state := ![initialBbox.x, initialBbox.y, initialBbox.z, 0, 0, 0]
    covariance := 1
    processNoise := processNoise
    measurementNoise := measurementNoise }

/-- State transition matrix `F` of `predict` (src/src/kalman.ts 38–45). -/
def Fmat (dt : ℚ) : Matrix (Fin 6) (Fin 6) ℚ :=
  !![1, 0, 0, dt, 0, 0;
     0, 1, 0, 0, dt, 0;
     0, 0, 1, 0, 0, dt;
     0, 0, 0, 1, 0, 0;
     0, 0, 0, 0, 1, 0;
     0, 0, 0, 0, 0, 1]

/-- `createProcessNoiseMatrix` (src/src/kalman.ts 226–240). -/
def createProcessNoiseMatrix (q dt : ℚ) : Matrix (Fin 6) (Fin 6) ℚ :=
  let dt2 := dt * dt
  let dt3 := dt2 * dt
  let dt4 := dt3 * dt
  !![dt4/4*q, 0, 0, dt3/2*q, 0, 0;
     0, dt4/4*q, 0, 0, dt3/2*q, 0;
     0, 0, dt4/4*q, 0, 0, dt3/2*q;
     dt3/2*q, 0, 0, dt2*q, 0, 0;
     0, dt3/2*q, 0, 0, dt2*q, 0;
     0, 0, dt3/2*q, 0, 0, dt2*q]

/-- `predict` (src/src/kalman.ts 36–56): `x := F·x`, `P := F·P·Fᵗ + Q(dt)`. -/
def predictKF (dt : ℚ) (kf : KalmanFilter3D) : KalmanFilter3D :=
  { kf with
    state := (Fmat dt).mulVec kf.state
    covariance :=
      Fmat dt * kf.covariance * (Fmat dt).transpose + createProcessNoiseMatrix kf.processNoise dt }

/-- Measurement matrix `H` of `update` (src/src/kalman.ts 64–68). -/
def Hmat : Matrix (Fin 3) (Fin 6) ℚ :=
  !![1, 0, 0, 0, 0, 0;
     0, 1, 0, 0, 0, 0;
     0, 0, 1, 0, 0, 0]

/-- Determinant used by `matrixInverse` (src/src/kalman.ts 198–200),
written with the source's cofactor expansion. -/
def det3 (A : Matrix (Fin 3) (Fin 3) ℚ) : ℚ :=
  A 0 0 * (A 1 1 * A 2 2 - A 1 2 * A 2 1) -
  A 0 1 * (A 1 0 * A 2 2 - A 1 2 * A 2 0) +
  A 0 2 * (A 1 0 * A 2 1 - A 1 1 * A 2 0)

/-- `matrixInverse` (src/src/kalman.ts 192–224): closed-form 3×3 inverse;
throws `singularMatrix` when `|det| < 1e-10`. -/
def matrixInverse3 (A : Matrix (Fin 3) (Fin 3) ℚ) :
    Except KErr (Matrix (Fin 3) (Fin 3) ℚ) :=
  let det := det3 A
  if |det| < 1 / 10000000000 then .error .singularMatrix
  else
    let invDet := 1 / det
    .ok !![(A 1 1 * A 2 2 - A 1 2 * A 2 1) * invDet,
           (A 0 2 * A 2 1 - A 0 1 * A 2 2) * invDet,
           (A 0 1 * A 1 2 - A 0 2 * A 1 1) * invDet;
           (A 1 2 * A 2 0 - A 1 0 * A 2 2) * invDet,
           (A 0 0 * A 2 2 - A 0 2 * A 2 0) * invDet,
           (A 0 2 * A 1 0 - A 0 0 * A 1 2) * invDet;
           (A 1 0 * A 2 1 - A 1 1 * A 2 0) * invDet,
           (A 0 1 * A 2 0 - A 0 0 * A 2 1) * invDet,
           (A 0 0 * A 1 1 - A 0 1 * A 1 0) * invDet]

/-- `update` (src/src/kalman.ts 62–107): Kalman measurement update of a 3D
position; fails (the source throws) when the innovation covariance `S` is
near-singular. -/
def updateKF (kf : KalmanFilter3D) (measurement : ℚ × ℚ × ℚ) :
    Except KErr KalmanFilter3D :=
  let H := Hmat
  let R : Matrix (Fin 3) (Fin 3) ℚ :=
    !![kf.measurementNoise, 0, 0;
       0, kf.measurementNoise, 0;
       0, 0, kf.measurementNoise]
  let S := H * kf.covariance * H.transpose + R
  match matrixInverse3 S with
  | .error e => .error e
  | .ok Sinv =>
    let K := kf.covariance * H.transpose * Sinv
    let predictedMeasurement := H.mulVec kf.state
    let residual : Fin 3 → ℚ :=
      ![measurement.1 - predictedMeasurement 0,
        measurement.2.1 - predictedMeasurement 1,
        measurement.2.2 - predictedMeasurement 2]
    let correction := K.mulVec residual
    let KH := K * H
    .ok { kf with
          state := fun i => kf.state i + correction i
          covariance := ((1 : Matrix (Fin 6) (Fin 6) ℚ) - KH) * kf.covariance }

/-- Track of the part_001 variant of index.ts, which owns a Kalman filter
through the optional `kalmanFilter` field. -/
structure TrackKF where
  id : ℕ
  bbox : BoundingBox3D
  velocity : ℚ × ℚ × ℚ
  age : ℚ
  hits : ℚ
  timeSinceUpdate : ℚ
  kalmanFilter : Option KalmanFilter3D
deriving DecidableEq

/-- `updateTracks` of the part_001 variant (lines 141–159): for each matched
pair, the bbox / timeSinceUpdate / hits mutations are applied first, then the
track's Kalman filter is updated with the detection position.  The source has
no try/catch, so a `singularMatrix` throw stops the loop: the returned pair
carries the tracks as mutated so far together with the propagated error. -/
def updateTracksKF (ts : List TrackKF) :
    List (Detection × Option ℕ) → List TrackKF × Option KErr
  | [] => (ts, none)
  | (d, a) :: rest =>
    match a with
    | none => updateTracksKF ts rest
    | some idx =>
      match ts.get? idx with
      | none => updateTracksKF ts rest
      | some tr =>
        let tr1 := { tr with bbox := d.bbox, timeSinceUpdate := 0, hits := tr.hits + 1 }
        match tr.kalmanFilter with
        | none => updateTracksKF (ts.set idx tr1) rest
        | some kf =>
          match updateKF kf (d.bbox.x, d.bbox.y, d.bbox.z) with
          | .ok kf' => updateTracksKF (ts.set idx { tr1 with kalmanFilter := some kf' }) rest
          | .error e => (ts.set idx tr1, some e)

/-! Concrete inputs used by the evaluation theorems and witnesses. -/

/-- Axis-aligned box with orientation 0. -/
def box (x y z w h l : ℚ) : BoundingBox3D := ⟨x, y, z, w, h, l, 0⟩

/-- Detection at the origin, 2×2×2 box. -/
def dA : Detection := { bbox := box 0 0 0 2 2 2, confidence := 1 }

/-- Detection far away from `dA`, 2×2×2 box. -/
def dB : Detection := { bbox := box 100 0 0 2 2 2, confidence := 1 }

/-- A Kalman filter whose innovation covariance is exactly singular:
the position block of the covariance is zero and the measurement noise
is zero, so `S = 0` and `|det S| < 1e-10`.  This filter state is reachable
through the public `KalmanFilter3D` API: `new KalmanFilter3D(bbox, 0.1, 0)`
followed by two `update` calls produces exactly this covariance. -/
def kfSing : KalmanFilter3D :=
  { state := ![5, 0, 0, 0, 0, 0]
    covariance := !![0,0,0,0,0,0;
                     0,0,0,0,0,0;
                     0,0,0,0,0,0;
                     0,0,0,1,0,0;
                     0,0,0,0,1,0;
                     0,0,0,0,0,1]
    processNoise := 1/10
    measurementNoise := 0 }

/-- A healthy, freshly constructed filter. -/
def kfGood : KalmanFilter3D := mkKalman (box 9 0 0 2 2 2) (1/10) (1/10)

/-- Track owning the singular filter. -/
def tK1 : TrackKF := ⟨1, box 5 0 0 2 2 2, (0, 0, 0), 2, 1, 1, some kfSing⟩

/-- Track owning the healthy filter. -/
def tK2 : TrackKF := ⟨2, box 9 0 0 2 2 2, (0, 0, 0), 2, 1, 1, some kfGood⟩

/-- Detection matched to `tK1`. -/
def dK1 : Detection := { bbox := box 5 0 0 2 2 2, confidence := 1 }

/-- Detection matched to `tK2`. -/
def dK2 : Detection := { bbox := box 9 0 0 2 2 2, confidence := 1 }

/-- Degenerate zero-extent box. -/
def zeroBox : BoundingBox3D := box 0 0 0 0 0 0

/-! Phase views of `step`, used to state properties of the frame pipeline. -/

/-- Assignments computed by a `step` frame (association runs on the
post-prediction tracks). -/
def stepAssignments (s : TrackerState) (detections : List Detection) : List (Option ℕ) :=
  associateDetections s.iouThreshold (predictTracks s.tracks) detections

/-- Track table of a `step` frame after the matched-track updates. -/
def stepUpdated (s : TrackerState) (detections : List Detection) : List Track :=
  updateTracksMain (predictTracks s.tracks) (detections.zip (stepAssignments s detections))

/-- Spawn result of a `step` frame: (track table, next id, new-track map). -/
def stepCreate (s : TrackerState) (detections : List Detection) :
    List Track × ℕ × List (ℕ × ℕ) :=
  createNewTracks (stepUpdated s detections) s.nextTrackId detections
    (stepAssignments s detections)

/-- Track table obtained by running the frame with pruning moved before
spawning, as §3/§4.4 of the spec state the order (and as the part_001
variant of `step` orders the two phases). -/
def stepTracksPruneFirst (s : TrackerState) (detections : List Detection) : List Track :=
  (createNewTracks (deleteOldTracks s.maxAge (stepUpdated s detections)) s.nextTrackId
    detections (stepAssignments s detections)).1

/-- Track-table invariant maintained by the tracker: every live id is below
`nextTrackId` and the live ids are pairwise distinct. -/
def TrackerInv (s : TrackerState) : Prop :=
  (∀ t ∈ s.tracks, t.id < s.nextTrackId) ∧ (s.tracks.map Track.id).Nodup

/-- Ids of the tracks that a frame's association matches to some detection. -/
def matchedIds (s : TrackerState) (detections : List Detection) : List ℕ :=
  ((stepAssignments s detections).filterMap (fun a => a)).filterMap
    (fun idx => ((predictTracks s.tracks).get? idx).map Track.id)

/-- The track with id `τ` is matched in none of the frames of the run. -/
def neverMatchedB (τ : ℕ) : TrackerState → List (List Detection) → Bool
  | _, [] => true
  | s, d :: ds => (decide (τ ∉ matchedIds s d)) && neverMatchedB τ (step s d).2 ds

/-- Index/detection/assignment triples of a frame, as consumed by
`createNewTracks` and the output assembly. -/
def stepPairs (s : TrackerState) (detections : List Detection) :
    List (ℕ × Detection × Option ℕ) :=
  enumFromN 0 (detections.zip (stepAssignments s detections))

def newTracksOfStep (s : TrackerState) (detections : List Detection) : List Track :=
  (createGo (stepPairs s detections) [] s.nextTrackId).1

def stepNewMap (s : TrackerState) (detections : List Detection) : List (ℕ × ℕ) :=
  (createGo (stepPairs s detections) [] s.nextTrackId).2.2

/-- Fresh single-track state used by the lifetime witness: one track with
id 1 and `timeSinceUpdate = 0`, `maxAge = 1`. -/
def sW6 : TrackerState :=
  { tracks := [⟨1, box 0 0 0 2 2 2, (0, 0, 0), 1, 1, 0⟩]
    nextTrackId := 2
    maxAge := 1
    minHits := 3
    iouThreshold := 3 / 10 }

/-- Soundness predicate for the accumulator of the inner association scan:
whenever a best index is recorded, it is unused and the recorded IoU is the
IoU of that track. -/
def GoodAcc (used : List ℕ) (dbox : BoundingBox3D) (tracks : List Track)
    (acc : Option ℕ × ℚ) : Prop :=
  ∀ t, acc.1 = some t →
    t ∉ used ∧ ∃ tr, tracks.get? t = some tr ∧ acc.2 = calculate3DIoU dbox tr.bbox

/-! Theorems. -/

/-- Membership in an enumeration locates the element. -/
theorem enumFromN_mem {α : Type} (l : List α) (n i : ℕ) (a : α)
    (h : (i, a) ∈ enumFromN n l) : ∃ j, i = n + j ∧ l.get? j = some a := by
  induction l generalizing n with
  | nil => simp [enumFromN] at h
  | cons hd tl ih =>
    simp only [enumFromN, List.mem_cons] at h
    rcases h with h | h
    · refine ⟨0, ?_, ?_⟩
      · simpa using congrArg Prod.fst h
      · have := congrArg Prod.snd h
        simp at this
        simp [this]
    · obtain ⟨j, hj, hg⟩ := ih (n + 1) h
      exact ⟨j + 1, by omega, by simpa using hg⟩

/-- The inner scan preserves accumulator soundness. -/
theorem bestOfGo_sound (used : List ℕ) (dbox : BoundingBox3D) (tracks : List Track)
    (l : List (ℕ × Track)) (acc : Option ℕ × ℚ)
    (hl : ∀ x ∈ l, tracks.get? x.1 = some x.2) (hacc : GoodAcc used dbox tracks acc) :
    GoodAcc used dbox tracks (bestOfGo used dbox l acc) := by
  induction l generalizing acc with
  | nil => simpa [bestOfGo] using hacc
  | cons hd tl ih =>
    obtain ⟨t, tr⟩ := hd
    have htr : tracks.get? t = some tr := hl (t, tr) (by simp)
    have hl' : ∀ x ∈ tl, tracks.get? x.1 = some x.2 := fun x hx => hl x (by simp [hx])
    simp only [bestOfGo]
    split_ifs with hu hiou
    · exact ih acc hl' hacc
    · refine ih _ hl' ?_
      intro t' ht'
      simp at ht'
      subst ht'
      exact ⟨hu, tr, htr, rfl⟩
    · exact ih acc hl' hacc

/-- When the scan elects a track, that track is unused, exists, and the
reported best IoU is its IoU. -/
theorem bestOf_sound (used : List ℕ) (dbox : BoundingBox3D) (tracks : List Track)
    (t : ℕ) (b : ℚ) (h : bestOf used dbox tracks = (some t, b)) :
    t ∉ used ∧ ∃ tr, tracks.get? t = some tr ∧ b = calculate3DIoU dbox tr.bbox := by
  have hl : ∀ x ∈ enumFromN 0 tracks, tracks.get? x.1 = some x.2 := by
    intro x hx
    obtain ⟨j, hj, hg⟩ := enumFromN_mem tracks 0 x.1 x.2 hx
    simpa [hj] using hg
  have hinit : GoodAcc used dbox tracks (none, -1) := by
    intro t' ht'
    simp at ht'
  have hg := bestOfGo_sound used dbox tracks (enumFromN 0 tracks) (none, -1) hl hinit
  rw [bestOf] at h
  have h2 := hg t (by rw [h])
  rcases h2 with ⟨hnu, tr, hget, hb⟩
  refine ⟨hnu, tr, hget, ?_⟩
  rw [h] at hb
  exact hb

/-- Every assignment produced by the greedy loop points at an existing
track, avoids the running `used` set, and meets the IoU threshold. -/
theorem associateGo_get_sound (thr : ℚ) (tracks : List Track) (dets : List Detection)
    (used : List ℕ) (i ti : ℕ)
    (h : (associateGo thr tracks dets used).get? i = some (some ti)) :
    ti ∉ used ∧ ∃ d tr, dets.get? i = some d ∧ tracks.get? ti = some tr ∧
      thr ≤ calculate3DIoU d.bbox tr.bbox := by
  induction dets generalizing used i with
  | nil => simp [associateGo] at h
  | cons d rest ih =>
    rw [associateGo] at h
    rcases hb : bestOf used d.bbox tracks with ⟨a, bIoU⟩
    rw [hb] at h
    cases a with
    | some t =>
      dsimp only at h
      by_cases hthr : thr ≤ bIoU
      · rw [if_pos hthr] at h
        cases i with
        | zero =>
          simp at h
          subst h
          obtain ⟨hnu, tr, hg, hbeq⟩ := bestOf_sound used d.bbox tracks t bIoU hb
          exact ⟨hnu, d, tr, rfl, hg, by rw [← hbeq]; exact hthr⟩
        | succ i =>
          simp only [List.get?_cons_succ] at h
          obtain ⟨hnu, rest'⟩ := ih (t :: used) i h
          exact ⟨fun hm => hnu (by simp [hm]), rest'⟩
      · rw [if_neg hthr] at h
        cases i with
        | zero => simp at h
        | succ i =>
          simp only [List.get?_cons_succ] at h
          exact ih used i h
    | none =>
      dsimp only at h
      cases i with
      | zero => simp at h
      | succ i =>
        simp only [List.get?_cons_succ] at h
        exact ih used i h

/-- The assigned track indices of the greedy loop are pairwise distinct and
avoid the initial `used` set. -/
theorem associateGo_assigned_nodup (thr : ℚ) (tracks : List Track)
    (dets : List Detection) (used : List ℕ) :
    ((associateGo thr tracks dets used).filterMap (fun a => a)).Nodup ∧
    ∀ v ∈ (associateGo thr tracks dets used).filterMap (fun a => a), v ∉ used := by
  induction dets generalizing used with
  | nil => simp [associateGo]
  | cons d rest ih =>
    rcases hb : bestOf used d.bbox tracks with ⟨a, bIoU⟩
    rw [associateGo, hb]
    cases a with
    | some t =>
      dsimp only
      by_cases hthr : thr ≤ bIoU
      · rw [if_pos hthr]
        obtain ⟨hnd, hval⟩ := ih (t :: used)
        have efm : (some t :: associateGo thr tracks rest (t :: used)).filterMap
            (fun a => a) = t :: (associateGo thr tracks rest (t :: used)).filterMap
            (fun a => a) := rfl
        rw [efm]
        constructor
        · refine List.Nodup.cons ?_ hnd
          intro hmem
          exact hval t hmem (by simp)
        · intro v hv
          rcases List.mem_cons.mp hv with hv | hv
          · rw [hv]
            exact (bestOf_sound used d.bbox tracks t bIoU hb).1
          · exact fun hm => hval v hv (by simp [hm])
      · rw [if_neg hthr]
        obtain ⟨hnd, hval⟩ := ih used
        have efm : (none :: associateGo thr tracks rest used).filterMap
            (fun a => a) = (associateGo thr tracks rest used).filterMap
            (fun a => a) := rfl
        rw [efm]
        exact ⟨hnd, hval⟩
    | none =>
      dsimp only
      obtain ⟨hnd, hval⟩ := ih used
      have efm : (none :: associateGo thr tracks rest used).filterMap
          (fun a => a) = (associateGo thr tracks rest used).filterMap
          (fun a => a) := rfl
      rw [efm]
      exact ⟨hnd, hval⟩

/-- Claim C10: the greedy association is one-to-one — the assigned track
indices contain no duplicate, so no two detections share a track — and a
detection is assigned a track only when their IoU reaches `iouThreshold`. -/
theorem claim10_greedy_one_to_one_thresholded (thr : ℚ) (tracks : List Track)
    (dets : List Detection) :
    ((associateDetections thr tracks dets).filterMap (fun a => a)).Nodup ∧
    ∀ i ti, (associateDetections thr tracks dets).get? i = some (some ti) →
      ∃ d tr, dets.get? i = some d ∧ tracks.get? ti = some tr ∧
        thr ≤ calculate3DIoU d.bbox tr.bbox := by
  constructor
  · exact (associateGo_assigned_nodup thr tracks dets []).1
  · intro i ti h
    exact (associateGo_get_sound thr tracks dets [] i ti h).2

/-- Claim C1 (code_bug evaluation): `step` does not return one output entry
per input detection.  With `maxAge = 0`, frame 1 spawns tracks 1 and 2;
in frame 2 the single detection matches track index 1, but `deleteOldTracks`
removes the stale track 0 before the output is assembled from the (now
shifted) stored index, so `this.tracks[1]` is out of range and the matched
detection is silently dropped: frame 2 has 1 input detection and 0 output
entries. -/
theorem claim1_matched_detection_dropped :
    ([[dA, dB], [dB]] : List (List Detection)).map List.length = [2, 1] ∧
    (trackBatch [[dA, dB], [dB]] ⟨some 0, none, none⟩).map List.length = [2, 0] := by
  decide

/-- Claim C2 (code_bug evaluation): `updateTracks` of the part_001 variant
has no try/catch, so when the first matched track's Kalman update fails with
the SingularMatrix error the loop stops: the error propagates (the frame
aborts) and the second matched track's update is never applied (its hits
stay 1 and its `timeSinceUpdate` stays 1); moreover the failing track is not
simply "skipped" — its bbox/hits/timeSinceUpdate mutations were already
applied before the throw. -/
theorem claim2_singular_update_aborts_frame :
    (updateTracksKF [tK1, tK2] [(dK1, some 0), (dK2, some 1)]).2 =
      some KErr.singularMatrix ∧
    ((updateTracksKF [tK1, tK2] [(dK1, some 0), (dK2, some 1)]).1.map
      fun t => (t.id, t.hits, t.timeSinceUpdate)) = [(1, 2, 0), (2, 1, 1)] := by
  decide

/-- Claim C3 counterexample: in src/src/index.ts, `step` spawns new tracks
before pruning, and the freshly spawned track is evaluated by that same
frame's pruning.  With `maxAge = -1` the single detection spawns track 1
(the output reports it), yet the birth frame's pruning immediately removes
it, which is impossible if pruning ran before spawning. -/
theorem claim3_spawn_pruned_in_birth_frame :
    (step (mkTracker ⟨some (-1), none, none⟩) [dA]).1 = [⟨dA, 1⟩] ∧
    (step (mkTracker ⟨some (-1), none, none⟩) [dA]).2.tracks = [] := by
  decide

/-- Claim C4 counterexample: constructing a tracker with negative `maxAge`,
non-positive `minHits` and out-of-range `iouThreshold` does not fail — the
constructor performs no validation and stores the invalid values verbatim. -/
theorem claim4_invalid_config_accepted :
    (mkTracker ⟨some (-5), some 0, some 2⟩).maxAge = -5 ∧
    (mkTracker ⟨some (-5), some 0, some 2⟩).minHits = 0 ∧
    (mkTracker ⟨some (-5), some 0, some 2⟩).iouThreshold = 2 := by
  decide

/-- Claim C4 (amended): the constructor validates nothing: every provided
option — valid or not — is stored unchanged, a missing option falls back to
the defaults 3 / 3 / 0.3, and the tracker always starts with an empty track
table and `nextTrackId = 1`. -/
theorem claim4_amended_constructor_stores_options (o : TrackerOptions) :
    (mkTracker o).maxAge = o.maxAge.getD 3 ∧
    (mkTracker o).minHits = o.minHits.getD 3 ∧
    (mkTracker o).iouThreshold = o.iouThreshold.getD (3 / 10) ∧
    (mkTracker o).tracks = [] ∧
    (mkTracker o).nextTrackId = 1 :=
  ⟨rfl, rfl, rfl, rfl, rfl⟩

/-- Claim C8 counterexample: `overlap(a,a) = 1` fails for a degenerate box:
for the zero-extent box the union is 0, so the source returns 0, not 1. -/
theorem claim8_degenerate_self_iou_ne_one :
    calculate3DIoU zeroBox zeroBox = 0 ∧ calculate3DIoU zeroBox zeroBox ≠ 1 := by
  decide

/-- Process noise built at `dt = 0` is the zero matrix. -/
theorem createProcessNoiseMatrix_zero (q : ℚ) : createProcessNoiseMatrix q 0 = 0 := by
  ext i j
  fin_cases i <;> fin_cases j <;>
    simp [createProcessNoiseMatrix, Matrix.vecHead, Matrix.vecTail] <;> decide

/-- Claim C9: predicting with `dt = 0` leaves the Kalman state and covariance
(and the whole filter) unchanged: the transition matrix becomes the identity
and the process-noise matrix becomes zero. -/
theorem claim9_predict_zero_dt_identity (kf : KalmanFilter3D) : predictKF 0 kf = kf := by
  have hF : Fmat 0 = 1 := by decide
  cases kf with
  | mk st cov pn mn =>
    simp [predictKF, hF, createProcessNoiseMatrix_zero, Matrix.one_mulVec,
      Matrix.transpose_one, Matrix.one_mul, Matrix.mul_one]

/-- Intersection volume is symmetric. -/
theorem inter_comm (a b : BoundingBox3D) :
    calculateIntersection3D a b = calculateIntersection3D b a := by
  simp only [calculateIntersection3D]
  rw [min_comm (a.x + a.width / 2) (b.x + b.width / 2),
    max_comm (a.x - a.width / 2) (b.x - b.width / 2),
    min_comm (a.y + a.height / 2) (b.y + b.height / 2),
    max_comm (a.y - a.height / 2) (b.y - b.height / 2),
    min_comm (a.z + a.length / 2) (b.z + b.length / 2),
    max_comm (a.z - a.length / 2) (b.z - b.length / 2)]

/-- IoU is symmetric. -/
theorem iou_comm (a b : BoundingBox3D) : calculate3DIoU a b = calculate3DIoU b a := by
  simp only [calculate3DIoU]
  rw [inter_comm a b, add_comm (a.width * a.height * a.length) (b.width * b.height * b.length)]

/-- Intersection volume is non-negative (each axis overlap is clamped). -/
theorem inter_nonneg (a b : BoundingBox3D) : 0 ≤ calculateIntersection3D a b := by
  simp only [calculateIntersection3D]
  exact mul_nonneg (mul_nonneg (le_max_left 0 _) (le_max_left 0 _)) (le_max_left 0 _)

/-- With non-negative extents on `a`, the intersection volume is bounded by
the volume of `a`. -/
theorem inter_le_vol (a b : BoundingBox3D) (hw : 0 ≤ a.width) (hh : 0 ≤ a.height)
    (hl : 0 ≤ a.length) :
    calculateIntersection3D a b ≤ a.width * a.height * a.length := by
  simp only [calculateIntersection3D]
  have hx : max 0 (min (a.x + a.width / 2) (b.x + b.width / 2) -
      max (a.x - a.width / 2) (b.x - b.width / 2)) ≤ a.width := by
    apply max_le hw
    have h1 := min_le_left (a.x + a.width / 2) (b.x + b.width / 2)
    have h2 := le_max_left (a.x - a.width / 2) (b.x - b.width / 2)
    linarith
  have hy : max 0 (min (a.y + a.height / 2) (b.y + b.height / 2) -
      max (a.y - a.height / 2) (b.y - b.height / 2)) ≤ a.height := by
    apply max_le hh
    have h1 := min_le_left (a.y + a.height / 2) (b.y + b.height / 2)
    have h2 := le_max_left (a.y - a.height / 2) (b.y - b.height / 2)
    linarith
  have hz : max 0 (min (a.z + a.length / 2) (b.z + b.length / 2) -
      max (a.z - a.length / 2) (b.z - b.length / 2)) ≤ a.length := by
    apply max_le hl
    have h1 := min_le_left (a.z + a.length / 2) (b.z + b.length / 2)
    have h2 := le_max_left (a.z - a.length / 2) (b.z - b.length / 2)
    linarith
  exact mul_le_mul (mul_le_mul hx hy (le_max_left 0 _) hw) hz (le_max_left 0 _)
    (mul_nonneg hw hh)

/-- Claim C8 (amended): `overlap(a,a) = 1` for boxes with positive extents
(degenerate boxes yield 0, per the counterexample); `overlap` is symmetric
for all inputs; and `overlap` lies in [0,1] whenever both boxes have
non-negative extents. -/
theorem claim8_amended_iou_properties (a b : BoundingBox3D) :
    (0 < a.width → 0 < a.height → 0 < a.length → calculate3DIoU a a = 1) ∧
    calculate3DIoU a b = calculate3DIoU b a ∧
    (0 ≤ a.width → 0 ≤ a.height → 0 ≤ a.length → 0 ≤ b.width → 0 ≤ b.height →
      0 ≤ b.length → 0 ≤ calculate3DIoU a b ∧ calculate3DIoU a b ≤ 1) := by
  refine ⟨?_, iou_comm a b, ?_⟩
  · intro hw hh hl
    simp only [calculate3DIoU, calculateIntersection3D]
    rw [min_self, max_self, min_self, max_self, min_self, max_self]
    have e1 : a.x + a.width / 2 - (a.x - a.width / 2) = a.width := by ring
    have e2 : a.y + a.height / 2 - (a.y - a.height / 2) = a.height := by ring
    have e3 : a.z + a.length / 2 - (a.z - a.length / 2) = a.length := by ring
    rw [e1, e2, e3, max_eq_right hw.le, max_eq_right hh.le, max_eq_right hl.le]
    have hv : (0 : ℚ) < a.width * a.height * a.length := by positivity
    have e4 : a.width * a.height * a.length + a.width * a.height * a.length -
        a.width * a.height * a.length = a.width * a.height * a.length := by ring
    rw [e4, if_pos hv]
    exact div_self hv.ne'
  · intro haw hah hal hbw hbh hbl
    have h0 := inter_nonneg a b
    have h1 := inter_le_vol a b haw hah hal
    have h2 : calculateIntersection3D a b ≤ b.width * b.height * b.length := by
      rw [inter_comm a b]
      exact inter_le_vol b a hbw hbh hbl
    simp only [calculate3DIoU]
    split_ifs with hu
    · constructor
      · exact div_nonneg h0 (le_of_lt hu)
      · rw [div_le_one hu]
        linarith
    · norm_num

/-- Witness for claim C8 (amended) at concrete overlapping boxes. -/
theorem claim8_amended_iou_properties_witness :
    (0 < (box 0 0 0 2 2 2).width ∧ 0 < (box 0 0 0 2 2 2).height ∧
      0 < (box 0 0 0 2 2 2).length) ∧
    calculate3DIoU (box 0 0 0 2 2 2) (box 0 0 0 2 2 2) = 1 ∧
    calculate3DIoU (box 0 0 0 2 2 2) (box 1 0 0 2 2 2) =
      calculate3DIoU (box 1 0 0 2 2 2) (box 0 0 0 2 2 2) ∧
    (0 ≤ calculate3DIoU (box 0 0 0 2 2 2) (box 1 0 0 2 2 2) ∧
      calculate3DIoU (box 0 0 0 2 2 2) (box 1 0 0 2 2 2) ≤ 1) :=
  ⟨⟨by decide, by decide, by decide⟩,
   (claim8_amended_iou_properties (box 0 0 0 2 2 2) (box 0 0 0 2 2 2)).1
     (by decide) (by decide) (by decide),
   (claim8_amended_iou_properties (box 0 0 0 2 2 2) (box 1 0 0 2 2 2)).2.1,
   (claim8_amended_iou_properties (box 0 0 0 2 2 2) (box 1 0 0 2 2 2)).2.2
     (by decide) (by decide) (by decide) (by decide) (by decide) (by decide)⟩

/-- Claim C7: `update` runs the identical per-frame pipeline as `step`
(predict, associate, update matched tracks, spawn, prune) — the resulting
internal tracker state is the same — and returns exactly the live tracks
whose hits reach `minHits`. -/
theorem claim7_update_step_same_state (s : TrackerState) (detections : List Detection) :
    (update s detections).2 = (step s detections).2 ∧
    (update s detections).1 =
      (step s detections).2.tracks.filter fun t => s.minHits ≤ t.hits :=
  ⟨rfl, rfl⟩

theorem set_get_same {α : Type} (l : List α) (i : ℕ) (a : α) (h : l.get? i = some a) :
    l.set i a = l := by
  induction l generalizing i with
  | nil => simp at h
  | cons x xs ih =>
    cases i with
    | zero =>
      simp at h
      simp [h]
    | succ i =>
      rw [List.get?_cons_succ] at h
      simp [List.set, ih i h]

theorem updStep_map_id (ts : List Track) (d : Detection) (a : Option ℕ) :
    (updStep ts d a).map Track.id = ts.map Track.id := by
  cases a with
  | none => rfl
  | some idx =>
    rw [updStep]
    cases hget : ts.get? idx with
    | none => rfl
    | some tr =>
      dsimp only
      rw [List.map_set]
      apply set_get_same
      rw [List.get?_map, hget]
      rfl

theorem updStep_length (ts : List Track) (d : Detection) (a : Option ℕ) :
    (updStep ts d a).length = ts.length := by
  cases a with
  | none => rfl
  | some idx =>
    rw [updStep]
    cases hget : ts.get? idx with
    | none => rfl
    | some tr => simp

theorem updStep_get_ne (ts : List Track) (d : Detection) (a : Option ℕ) (p : ℕ)
    (h : a ≠ some p) : (updStep ts d a).get? p = ts.get? p := by
  cases a with
  | none => rfl
  | some idx =>
    rw [updStep]
    cases hget : ts.get? idx with
    | none => rfl
    | some tr =>
      dsimp only
      exact List.get?_set_ne _ _ (fun he => h (by rw [he]))

theorem updateTracksMain_map_id (pairs : List (Detection × Option ℕ)) (ts : List Track) :
    (updateTracksMain ts pairs).map Track.id = ts.map Track.id := by
  induction pairs generalizing ts with
  | nil => rfl
  | cons pr rest ih =>
    rw [updateTracksMain, List.foldl_cons]
    rw [← updateTracksMain]
    rw [ih, updStep_map_id]

theorem updateTracksMain_get_ne (pairs : List (Detection × Option ℕ)) (ts : List Track)
    (p : ℕ) (h : ∀ pr ∈ pairs, pr.2 ≠ some p) :
    (updateTracksMain ts pairs).get? p = ts.get? p := by
  induction pairs generalizing ts with
  | nil => rfl
  | cons pr rest ih =>
    rw [updateTracksMain, List.foldl_cons, ← updateTracksMain]
    rw [ih _ (fun q hq => h q (by simp [hq])), updStep_get_ne]
    exact h pr (by simp)

theorem createGo_acc (pairs : List (ℕ × Detection × Option ℕ)) (ts : List Track) (n : ℕ) :
    createGo pairs ts n =
      (ts ++ (createGo pairs [] n).1, (createGo pairs [] n).2) := by
  induction pairs generalizing ts n with
  | nil => simp [createGo]
  | cons x rest ih =>
    obtain ⟨i, d, a⟩ := x
    cases a with
    | some v =>
      rw [createGo]
      rw [show createGo ((i, d, some v) :: rest) [] n = createGo rest [] n from rfl]
      exact ih ts n
    | none =>
      rw [createGo]
      rw [show createGo ((i, d, none) :: rest) [] n =
        (let r := createGo rest ([] ++ [newTrack n d]) (n + 1)
         (r.1, r.2.1, (i, n) :: r.2.2)) from rfl]
      dsimp only
      rw [ih (ts ++ [newTrack n d]) (n + 1), ih ([] ++ [newTrack n d]) (n + 1)]
      simp

theorem createGo_spec (pairs : List (ℕ × Detection × Option ℕ)) (n : ℕ) :
    n ≤ (createGo pairs [] n).2.1 ∧
    (∀ t ∈ (createGo pairs [] n).1,
      n ≤ t.id ∧ t.id < (createGo pairs [] n).2.1 ∧ t.timeSinceUpdate = 0 ∧
        t.hits = 1 ∧ t.age = 1) ∧
    ((createGo pairs [] n).1.map Track.id).Nodup ∧
    (∀ p ∈ (createGo pairs [] n).2.2, p.2 ∈ (createGo pairs [] n).1.map Track.id) := by
  induction pairs generalizing n with
  | nil => simp [createGo]
  | cons x rest ih =>
    obtain ⟨i, d, a⟩ := x
    cases a with
    | some v =>
      rw [show createGo ((i, d, some v) :: rest) [] n = createGo rest [] n from rfl]
      exact ih n
    | none =>
      rw [show createGo ((i, d, none) :: rest) [] n =
        (let r := createGo rest ([] ++ [newTrack n d]) (n + 1)
         (r.1, r.2.1, (i, n) :: r.2.2)) from rfl]
      dsimp only
      rw [createGo_acc rest ([] ++ [newTrack n d]) (n + 1)]
      obtain ⟨h1, h2, h3, h4⟩ := ih (n + 1)
      dsimp only
      refine ⟨by omega, ?_, ?_, ?_⟩
      · intro t ht
        simp only [List.nil_append, List.cons_append, List.mem_cons, List.nil_append] at ht
        rcases ht with ht | ht
        · subst ht
          refine ⟨le_refl _, ?_, rfl, rfl, rfl⟩
          show n < (createGo rest [] (n + 1)).2.1
          omega
        · obtain ⟨ha, hb, hc⟩ := h2 t ht
          exact ⟨by omega, hb, hc⟩
      · simp only [List.nil_append, List.cons_append, List.map_cons, List.nil_append]
        refine List.Nodup.cons ?_ h3
        intro hmem
        simp only [List.mem_map] at hmem
        obtain ⟨t, ht, hid⟩ := hmem
        have := (h2 t ht).1
        simp [newTrack] at hid
        omega
      · intro p hp
        simp only [List.mem_cons] at hp
        rcases hp with hp | hp
        · subst hp
          simp [newTrack]
        · have := h4 p hp
          simp only [List.nil_append, List.cons_append, List.map_cons, List.nil_append]
          simp only [List.mem_cons]
          right
          exact this

theorem mem_deleteOldTracks (maxAge : ℚ) (ts : List Track) (t : Track) :
    t ∈ deleteOldTracks maxAge ts ↔ t ∈ ts ∧ t.timeSinceUpdate ≤ maxAge := by
  simp [deleteOldTracks]

theorem deleteOldTracks_ids_sublist (maxAge : ℚ) (ts : List Track) :
    ((deleteOldTracks maxAge ts).map Track.id).Sublist (ts.map Track.id) :=
  (List.filter_sublist ts).map Track.id

theorem lookupMap_mem (m : List (ℕ × ℕ)) (i v : ℕ) (h : lookupMap m i = some v) :
    (i, v) ∈ m := by
  induction m with
  | nil => simp [lookupMap] at h
  | cons kv rest ih =>
    obtain ⟨k, w⟩ := kv
    rw [lookupMap] at h
    by_cases hk : k = i
    · rw [if_pos hk] at h
      simp at h
      simp [hk, h]
    · rw [if_neg hk] at h
      simp [ih h]

theorem assembleGo_ids (t4 : List Track) (m : List (ℕ × ℕ))
    (pairs : List (ℕ × Detection × Option ℕ)) (td : TrackedDetection)
    (h : td ∈ assembleGo t4 m pairs) :
    td.trackId ∈ t4.map Track.id ∨ ∃ p ∈ m, td.trackId = p.2 := by
  induction pairs with
  | nil => simp [assembleGo] at h
  | cons x rest ih =>
    obtain ⟨i, d, a⟩ := x
    cases a with
    | some idx =>
      rw [show assembleGo t4 m ((i, d, some idx) :: rest) =
        (match (t4.get? idx).map Track.id with
         | some trackId => ⟨d, trackId⟩ :: assembleGo t4 m rest
         | none =>
           match lookupMap m i with
           | some createdId => ⟨d, createdId⟩ :: assembleGo t4 m rest
           | none => assembleGo t4 m rest) from rfl] at h
      cases hget : (t4.get? idx).map Track.id with
      | some tid =>
        rw [hget] at h
        rcases List.mem_cons.mp h with h | h
        · subst h
          left
          cases hg : t4.get? idx with
          | none => rw [hg] at hget; simp at hget
          | some tr =>
            rw [hg] at hget
            simp at hget
            rw [← hget]
            exact List.mem_map_of_mem Track.id (List.get?_mem hg)
        · exact ih h
      | none =>
        rw [hget] at h
        cases hl : lookupMap m i with
        | some cid =>
          rw [hl] at h
          rcases List.mem_cons.mp h with h | h
          · subst h
            exact Or.inr ⟨(i, cid), lookupMap_mem m i cid hl, rfl⟩
          · exact ih h
        | none =>
          rw [hl] at h
          exact ih h
    | none =>
      rw [show assembleGo t4 m ((i, d, none) :: rest) =
        (match lookupMap m i with
         | some createdId => ⟨d, createdId⟩ :: assembleGo t4 m rest
         | none => assembleGo t4 m rest) from rfl] at h
      cases hl : lookupMap m i with
      | some cid =>
        rw [hl] at h
        rcases List.mem_cons.mp h with h | h
        · subst h
          exact Or.inr ⟨(i, cid), lookupMap_mem m i cid hl, rfl⟩
        · exact ih h
      | none =>
        rw [hl] at h
        exact ih h


theorem predictTracks_map_id (ts : List Track) :
    (predictTracks ts).map Track.id = ts.map Track.id := by
  rw [predictTracks, List.map_map]
  exact List.map_congr_left fun a _ => rfl

theorem stepUpdated_map_id (s : TrackerState) (dets : List Detection) :
    (stepUpdated s dets).map Track.id = s.tracks.map Track.id := by
  rw [stepUpdated, updateTracksMain_map_id, predictTracks_map_id]

theorem stepCreate_eq (s : TrackerState) (dets : List Detection) :
    stepCreate s dets =
      (stepUpdated s dets ++ newTracksOfStep s dets,
       (createGo (stepPairs s dets) [] s.nextTrackId).2) := by
  rw [stepCreate, createNewTracks, ← stepPairs, createGo_acc, newTracksOfStep]

theorem step_snd_tracks (s : TrackerState) (dets : List Detection) :
    (step s dets).2.tracks =
      deleteOldTracks s.maxAge (stepUpdated s dets ++ newTracksOfStep s dets) := by
  show deleteOldTracks s.maxAge (stepCreate s dets).1 = _
  rw [stepCreate_eq]

theorem step_snd_nextId (s : TrackerState) (dets : List Detection) :
    (step s dets).2.nextTrackId = (createGo (stepPairs s dets) [] s.nextTrackId).2.1 := by
  show (stepCreate s dets).2.1 = _
  rw [stepCreate_eq]

theorem step_snd_config (s : TrackerState) (dets : List Detection) :
    (step s dets).2.maxAge = s.maxAge ∧ (step s dets).2.minHits = s.minHits ∧
      (step s dets).2.iouThreshold = s.iouThreshold :=
  ⟨rfl, rfl, rfl⟩

theorem step_fst_eq (s : TrackerState) (dets : List Detection) :
    (step s dets).1 = assembleGo (step s dets).2.tracks (stepNewMap s dets)
      (stepPairs s dets) := by
  show assembleGo (deleteOldTracks s.maxAge (stepCreate s dets).1) (stepCreate s dets).2.2
      (enumFromN 0 (dets.zip (stepAssignments s dets))) = _
  rw [stepCreate_eq, step_snd_tracks, stepNewMap, stepPairs]

theorem newTracks_spec (s : TrackerState) (dets : List Detection) :
    s.nextTrackId ≤ (step s dets).2.nextTrackId ∧
    (∀ t ∈ newTracksOfStep s dets,
      s.nextTrackId ≤ t.id ∧ t.id < (step s dets).2.nextTrackId ∧
        t.timeSinceUpdate = 0 ∧ t.hits = 1 ∧ t.age = 1) ∧
    ((newTracksOfStep s dets).map Track.id).Nodup ∧
    (∀ p ∈ stepNewMap s dets, p.2 ∈ (newTracksOfStep s dets).map Track.id) := by
  rw [step_snd_nextId]
  exact createGo_spec (stepPairs s dets) s.nextTrackId

theorem step_ids_decomp (s : TrackerState) (dets : List Detection) (τ : ℕ)
    (h : τ ∈ (step s dets).2.tracks.map Track.id) :
    τ ∈ s.tracks.map Track.id ∨ τ ∈ (newTracksOfStep s dets).map Track.id := by
  rw [step_snd_tracks] at h
  have hsub := deleteOldTracks_ids_sublist s.maxAge
    (stepUpdated s dets ++ newTracksOfStep s dets)
  have hmem := hsub.mem h
  rw [List.map_append, List.mem_append, stepUpdated_map_id] at hmem
  exact hmem

theorem step_nextId_mono (s : TrackerState) (dets : List Detection) :
    s.nextTrackId ≤ (step s dets).2.nextTrackId :=
  (newTracks_spec s dets).1

theorem trackerInv_step (s : TrackerState) (dets : List Detection) (h : TrackerInv s) :
    TrackerInv (step s dets).2 := by
  obtain ⟨hbound, hnodup⟩ := h
  obtain ⟨hmono, hspec, hnew_nodup, _⟩ := newTracks_spec s dets
  constructor
  · intro t ht
    have hid : t.id ∈ (step s dets).2.tracks.map Track.id := List.mem_map_of_mem _ ht
    rcases step_ids_decomp s dets t.id hid with hc | hc
    · obtain ⟨t0, ht0, hid0⟩ := List.mem_map.mp hc
      have := hbound t0 ht0
      omega
    · obtain ⟨t0, ht0, hid0⟩ := List.mem_map.mp hc
      have := (hspec t0 ht0).2.1
      omega
  · rw [step_snd_tracks]
    apply List.Nodup.sublist (deleteOldTracks_ids_sublist _ _)
    rw [List.map_append, stepUpdated_map_id]
    refine List.Nodup.append hnodup hnew_nodup ?_
    intro τ hτl hτr
    obtain ⟨t0, ht0, hid0⟩ := List.mem_map.mp hτl
    obtain ⟨t1, ht1, hid1⟩ := List.mem_map.mp hτr
    have h0 := hbound t0 ht0
    have h1 := (hspec t1 ht1).1
    omega

/-- Claim C5: for every run, the tracker invariant (live ids below
`nextTrackId`, pairwise distinct) holds initially and is preserved by every
`step`; `nextTrackId` never decreases; and every output entry's id is either
the id of a track alive before the frame or a freshly minted id at least
`nextTrackId` (and below the post-frame `nextTrackId`), so deleted ids are
never reused. -/
theorem claim5_output_ids_fresh_or_alive (o : TrackerOptions) :
    TrackerInv (mkTracker o) ∧
    ∀ s dets, TrackerInv s →
      TrackerInv (step s dets).2 ∧
      s.nextTrackId ≤ (step s dets).2.nextTrackId ∧
      ∀ td ∈ (step s dets).1,
        td.trackId ∈ s.tracks.map Track.id ∨
          (s.nextTrackId ≤ td.trackId ∧ td.trackId < (step s dets).2.nextTrackId) := by
  refine ⟨⟨by simp [mkTracker], by simp [mkTracker]⟩, ?_⟩
  intro s dets hInv
  refine ⟨trackerInv_step s dets hInv, step_nextId_mono s dets, ?_⟩
  intro td htd
  rw [step_fst_eq] at htd
  obtain ⟨hmono, hspec, hnew_nodup, hmap⟩ := newTracks_spec s dets
  rcases assembleGo_ids _ _ _ td htd with hc | ⟨p, hp, hpe⟩
  · rcases step_ids_decomp s dets td.trackId hc with hc2 | hc2
    · exact Or.inl hc2
    · obtain ⟨t0, ht0, hid0⟩ := List.mem_map.mp hc2
      have := hspec t0 ht0
      right
      omega
  · have := hmap p hp
    obtain ⟨t0, ht0, hid0⟩ := List.mem_map.mp this
    have hb := hspec t0 ht0
    right
    rw [hpe]
    omega

/-- Claim C3 (amended): in `step` (and `update`), new tracks are spawned
before pruning runs; nevertheless, whenever `maxAge` is non-negative, the
post-frame track table equals the table obtained by pruning before spawning,
and every track spawned in the frame is present in the post-frame table — a
track created in a frame is never removed by its birth frame's pruning. -/
theorem claim3_amended_prune_order_immaterial (s : TrackerState) (dets : List Detection) (h : 0 ≤ s.maxAge) :
    (step s dets).2.tracks = stepTracksPruneFirst s dets ∧
    ∀ p ∈ stepNewMap s dets, p.2 ∈ (step s dets).2.tracks.map Track.id := by
  obtain ⟨hmono, hspec, hnew_nodup, hmap⟩ := newTracks_spec s dets
  have hkeep : ∀ t ∈ newTracksOfStep s dets, t.timeSinceUpdate ≤ s.maxAge := by
    intro t ht
    rw [(hspec t ht).2.2.1]
    exact h
  have hsplit : (step s dets).2.tracks =
      deleteOldTracks s.maxAge (stepUpdated s dets) ++ newTracksOfStep s dets := by
    rw [step_snd_tracks, deleteOldTracks, List.filter_append]
    rw [← deleteOldTracks, ← deleteOldTracks]
    congr 1
    rw [deleteOldTracks, List.filter_eq_self]
    intro t ht
    simpa using hkeep t ht
  constructor
  · rw [hsplit, stepTracksPruneFirst, createNewTracks, ← stepPairs, createGo_acc,
      ← newTracksOfStep]
  · intro p hp
    rw [hsplit, List.map_append]
    exact List.mem_append_right _ (hmap p hp)


theorem t3_ids_nodup (s : TrackerState) (dets : List Detection) (hInv : TrackerInv s) :
    ((stepUpdated s dets ++ newTracksOfStep s dets).map Track.id).Nodup := by
  obtain ⟨hbound, hnodup⟩ := hInv
  obtain ⟨hmono, hspec, hnew_nodup, _⟩ := newTracks_spec s dets
  rw [List.map_append, stepUpdated_map_id]
  refine List.Nodup.append hnodup hnew_nodup ?_
  intro τ hτl hτr
  obtain ⟨t0, ht0, hid0⟩ := List.mem_map.mp hτl
  obtain ⟨t1, ht1, hid1⟩ := List.mem_map.mp hτr
  have h0 := hbound t0 ht0
  have h1 := (hspec t1 ht1).1
  omega

theorem step_unmatched (s : TrackerState) (dets : List Detection) (hInv : TrackerInv s)
    (p : ℕ) (t : Track) (hp : s.tracks.get? p = some t)
    (hnm : t.id ∉ matchedIds s dets) :
    (t.timeSinceUpdate + 1 ≤ s.maxAge →
      ∃ t' ∈ (step s dets).2.tracks, t'.id = t.id ∧
        t'.timeSinceUpdate = t.timeSinceUpdate + 1) ∧
    (¬ t.timeSinceUpdate + 1 ≤ s.maxAge →
      t.id ∉ (step s dets).2.tracks.map Track.id) := by
  have hpredget : (predictTracks s.tracks).get? p =
      some { t with age := t.age + 1, timeSinceUpdate := t.timeSinceUpdate + 1 } := by
    rw [predictTracks, List.get?_map, hp]
    rfl
  have hnotass : ∀ pr ∈ dets.zip (stepAssignments s dets), pr.2 ≠ some p := by
    intro pr hpr he
    apply hnm
    rw [matchedIds]
    apply List.mem_filterMap.mpr
    refine ⟨p, ?_, ?_⟩
    · apply List.mem_filterMap.mpr
      refine ⟨some p, ?_, rfl⟩
      rw [← he]
      obtain ⟨d0, a0⟩ := pr
      exact (List.of_mem_zip hpr).2
    · rw [hpredget]
      rfl
  have hupdget : (stepUpdated s dets).get? p =
      some { t with age := t.age + 1, timeSinceUpdate := t.timeSinceUpdate + 1 } := by
    rw [stepUpdated, updateTracksMain_get_ne _ _ _ hnotass, hpredget]
  have hmem3 : { t with age := t.age + 1, timeSinceUpdate := t.timeSinceUpdate + 1 } ∈
      stepUpdated s dets ++ newTracksOfStep s dets :=
    List.mem_append_left _ (List.get?_mem hupdget)
  have ht3nodup := t3_ids_nodup s dets hInv
  constructor
  · intro hle
    refine ⟨{ t with age := t.age + 1, timeSinceUpdate := t.timeSinceUpdate + 1 }, ?_, rfl, rfl⟩
    rw [step_snd_tracks, mem_deleteOldTracks]
    exact ⟨hmem3, hle⟩
  · intro hgt hmemids
    obtain ⟨t', ht', hid'⟩ := List.mem_map.mp hmemids
    rw [step_snd_tracks, mem_deleteOldTracks] at ht'
    obtain ⟨ht3, htsu⟩ := ht'
    have heq : t' = { t with age := t.age + 1, timeSinceUpdate := t.timeSinceUpdate + 1 } :=
      List.inj_on_of_nodup_map ht3nodup ht3 hmem3 hid'
    rw [heq] at htsu
    exact hgt htsu

theorem step_gone (s : TrackerState) (dets : List Detection) (τ : ℕ)
    (h1 : τ ∉ s.tracks.map Track.id) (h2 : τ < s.nextTrackId) :
    τ ∉ (step s dets).2.tracks.map Track.id ∧ τ < (step s dets).2.nextTrackId := by
  constructor
  · intro hmem
    rcases step_ids_decomp s dets τ hmem with hc | hc
    · exact h1 hc
    · obtain ⟨t0, ht0, hid0⟩ := List.mem_map.mp hc
      have := ((newTracks_spec s dets).2.1 t0 ht0).1
      omega
  · exact lt_of_lt_of_le h2 (step_nextId_mono s dets)

theorem run_gone (ds : List (List Detection)) (s : TrackerState) (τ : ℕ)
    (h1 : τ ∉ s.tracks.map Track.id) (h2 : τ < s.nextTrackId) :
    τ ∉ (runState s ds).tracks.map Track.id := by
  induction ds generalizing s with
  | nil => exact h1
  | cons d rest ih =>
    obtain ⟨hg1, hg2⟩ := step_gone s d τ h1 h2
    exact ih (step s d).2 hg1 hg2

theorem c6aux (ds : List (List Detection)) (s : TrackerState) (τ c M : ℕ)
    (hInv : TrackerInv s) (hM : s.maxAge = (M : ℚ)) (hc : c ≤ M)
    (hpres : ∃ t ∈ s.tracks, t.id = τ ∧ t.timeSinceUpdate = (c : ℚ))
    (hnm : neverMatchedB τ s ds = true) :
    (c + ds.length ≤ M →
      ∃ t ∈ (runState s ds).tracks, t.id = τ ∧
        t.timeSinceUpdate = ((c + ds.length : ℕ) : ℚ)) ∧
    (M < c + ds.length → τ ∉ (runState s ds).tracks.map Track.id) := by
  induction ds generalizing s c with
  | nil =>
    constructor
    · intro _
      simpa using hpres
    · intro hlt
      simp at hlt
      omega
  | cons d rest ih =>
    rw [neverMatchedB, Bool.and_eq_true, decide_eq_true_eq] at hnm
    obtain ⟨hnm1, hnm2⟩ := hnm
    obtain ⟨t, ht, hid, htsu⟩ := hpres
    obtain ⟨p, hp⟩ := List.get?_of_mem ht
    have hrun : runState s (d :: rest) = runState (step s d).2 rest := rfl
    have hsu := step_unmatched s d hInv p t hp (by rw [hid]; exact hnm1)
    have hInv' := trackerInv_step s d hInv
    have hM' : (step s d).2.maxAge = (M : ℚ) := by
      rw [(step_snd_config s d).1, hM]
    by_cases hcase : c + 1 ≤ M
    · have hle : t.timeSinceUpdate + 1 ≤ s.maxAge := by
        rw [htsu, hM]
        exact_mod_cast hcase
      obtain ⟨t', ht', hid', htsu'⟩ := hsu.1 hle
      have hpres' : ∃ t0 ∈ (step s d).2.tracks, t0.id = τ ∧
          t0.timeSinceUpdate = ((c + 1 : ℕ) : ℚ) := by
        refine ⟨t', ht', by rw [hid', hid], ?_⟩
        rw [htsu', htsu]
        push_cast
        ring
      obtain ⟨ihp, ihn⟩ := ih (step s d).2 (c + 1) hInv' hM' hcase hpres' hnm2
      constructor
      · intro hlen
        rw [hrun]
        have harr : c + 1 + rest.length = c + (d :: rest).length := by
          simp
          omega
        have := ihp (by simp at hlen; omega)
        rw [harr] at this
        exact this
      · intro hlen
        rw [hrun]
        refine ihn ?_
        simp at hlen
        omega
    · have hdie : ¬ t.timeSinceUpdate + 1 ≤ s.maxAge := by
        rw [htsu, hM]
        intro hcon
        apply hcase
        exact_mod_cast hcon
      have hgone1 : τ ∉ (step s d).2.tracks.map Track.id := by
        rw [← hid]
        exact hsu.2 hdie
      have hgone2 : τ < (step s d).2.nextTrackId := by
        have := hInv.1 t ht
        rw [hid] at this
        exact lt_of_lt_of_le this (step_nextId_mono s d)
      constructor
      · intro hlen
        simp at hlen
        omega
      · intro _
        rw [hrun]
        exact run_gone rest (step s d).2 τ hgone1 hgone2

/-- Claim C6: a track is kept by a frame's pruning iff its
`timeSinceUpdate` does not exceed `maxAge` (so it is removed iff
`timeSinceUpdate > maxAge`); consequently, a track that is fresh
(`timeSinceUpdate = 0`) at the end of frame `k` and never matched in any
later frame is still in the track table after `j ≤ maxAge` further frames
(with `timeSinceUpdate = j`) and is absent from the table after any
`j > maxAge` further frames — from frame `k + maxAge + 1` onward — for
non-negative integer `maxAge`. -/
theorem claim6_prune_iff_stale_lifetime :
    (∀ (maxAge : ℚ) (ts : List Track) (t : Track),
      t ∈ deleteOldTracks maxAge ts ↔ t ∈ ts ∧ ¬ maxAge < t.timeSinceUpdate) ∧
    ∀ (s : TrackerState) (M τ : ℕ) (ds : List (List Detection)),
      TrackerInv s → s.maxAge = (M : ℚ) →
      (∃ t ∈ s.tracks, t.id = τ ∧ t.timeSinceUpdate = 0) →
      neverMatchedB τ s ds = true →
      (ds.length ≤ M → ∃ t ∈ (runState s ds).tracks, t.id = τ ∧
        t.timeSinceUpdate = (ds.length : ℚ)) ∧
      (M < ds.length → τ ∉ (runState s ds).tracks.map Track.id) := by
  constructor
  · intro maxAge ts t
    rw [mem_deleteOldTracks, not_lt]
  · intro s M τ ds hInv hM hpres hnm
    have hpres0 : ∃ t ∈ s.tracks, t.id = τ ∧ t.timeSinceUpdate = ((0 : ℕ) : ℚ) := by
      simpa using hpres
    obtain ⟨h1, h2⟩ := c6aux ds s τ 0 M hInv hM (Nat.zero_le M) hpres0 hnm
    constructor
    · intro hlen
      have := h1 (by omega)
      simpa using this
    · intro hlen
      exact h2 (by omega)


/-- Witness for claim C3 (amended) at the default configuration and one
detection. -/
theorem claim3_amended_prune_order_immaterial_witness :
    0 ≤ (mkTracker ⟨none, none, none⟩).maxAge ∧
    ((step (mkTracker ⟨none, none, none⟩) [dA]).2.tracks =
      stepTracksPruneFirst (mkTracker ⟨none, none, none⟩) [dA] ∧
     ∀ p ∈ stepNewMap (mkTracker ⟨none, none, none⟩) [dA],
       p.2 ∈ (step (mkTracker ⟨none, none, none⟩) [dA]).2.tracks.map Track.id) :=
  ⟨by decide, claim3_amended_prune_order_immaterial (mkTracker ⟨none, none, none⟩) [dA]
    (by decide)⟩

/-- Witness for claim C5 at a concrete one-track state and one detection. -/
theorem claim5_output_ids_fresh_or_alive_witness :
    TrackerInv sW6 ∧
    (TrackerInv (step sW6 [dA]).2 ∧
     sW6.nextTrackId ≤ (step sW6 [dA]).2.nextTrackId ∧
     ∀ td ∈ (step sW6 [dA]).1,
       td.trackId ∈ sW6.tracks.map Track.id ∨
         (sW6.nextTrackId ≤ td.trackId ∧
           td.trackId < (step sW6 [dA]).2.nextTrackId)) :=
  ⟨by exact ⟨by decide, by decide⟩,
   (claim5_output_ids_fresh_or_alive ⟨none, none, none⟩).2 sW6 [dA]
     (by exact ⟨by decide, by decide⟩)⟩

/-- Witness for claim C6: a fresh track with id 1 in a tracker with
`maxAge = 1` that never matches again (three empty frames) is absent after
frame 2. -/
theorem claim6_prune_iff_stale_lifetime_witness :
    (TrackerInv sW6 ∧ sW6.maxAge = ((1 : ℕ) : ℚ) ∧
      (∃ t ∈ sW6.tracks, t.id = 1 ∧ t.timeSinceUpdate = 0) ∧
      neverMatchedB 1 sW6 [[], [], []] = true) ∧
    ((1 : ℕ) < ([[], [], []] : List (List Detection)).length →
      1 ∉ (runState sW6 [[], [], []]).tracks.map Track.id) :=
  ⟨⟨by exact ⟨by decide, by decide⟩, by norm_num [sW6], by decide, by decide⟩,
   (claim6_prune_iff_stale_lifetime.2 sW6 1 1 [[], [], []]
     (by exact ⟨by decide, by decide⟩) (by norm_num [sW6]) (by decide) (by decide)).2⟩

end AB3DMOT
